import Mathlib

/-!
Verification of the poker hand rating script (`poker.py`).

The script reads card tokens, groups them into 5-card hands sorted by rank
descending, rates each hand with a registry of check functions ordered by
`HandType` value, and compares two rated hands with Python tuple comparison.

The definitions below are a shallow embedding of the script: Python ints
become `Nat` (or `Int` where subtraction matters), tuples become lists or
pairs, exceptions become `Except`, and `None` becomes `Option.none`.
-/

namespace Poker

/-- Python exceptions that the embedded fragments can raise. -/
inductive PyErr where
  | valueError
  | indexError
  | keyError
  deriving DecidableEq, Repr

/-- A card as yielded by `read_cards`: a `(value, suit)` pair. -/
abbrev Card := Nat × Char

/-- A hand is a list of cards (the script builds lists of 5). -/
abbrev Hand := List Card

/-- The `HandType` IntEnum of the script. -/
inductive HandType where
  | HIGH_CARD
  | PAIR
  | TWO_PAIRS
  | THREE_OF_A_KIND
  | STRAIGHT
  | FLUSH
  | FULL_HOUSE
  | FOUR_OF_A_KIND
  | STRAIGHT_FLUSH
  deriving DecidableEq, Repr

/-- The numeric value of each `HandType` member (`HIGH_CARD = 1`, ...,
`STRAIGHT_FLUSH = 9`). -/
def HandType.val : HandType → Nat
  | .HIGH_CARD => 1
  | .PAIR => 2
  | .TWO_PAIRS => 3
  | .THREE_OF_A_KIND => 4
  | .STRAIGHT => 5
  | .FLUSH => 6
  | .FULL_HOUSE => 7
  | .FOUR_OF_A_KIND => 8
  | .STRAIGHT_FLUSH => 9

/-- The `pictures` dict of `read_cards`. -/
def pictures : List (Char × Nat) :=
  [('A', 14), ('K', 13), ('Q', 12), ('J', 11), ('T', 10)]

/-- Numeric value of a digit character (what `int(card[0])` returns when
`card[0]` is a digit). -/
def digitVal (c : Char) : Nat := c.toNat - '0'.toNat

/-- The per-token body of `read_cards`: `value = int(card[0])` falling back to
`pictures[card[0].upper()]` on `ValueError`, then `yield (value, card[1])`.
Indexing an absent position raises `IndexError`; a failed dict lookup raises
`KeyError`. -/
def read_card (s : String) : Except PyErr Card :=
  match s.data with
  | [] => .error .indexError
  | c0 :: rest =>
    match
      (if c0.isDigit then Except.ok (digitVal c0)
       else
         match pictures.lookup c0.toUpper with
         | some v => Except.ok v
         | none => Except.error PyErr.keyError : Except PyErr Nat) with
    | .error e => .error e
    | .ok v =>
      match rest with
      | [] => .error .indexError
      | c1 :: _ => .ok (v, c1)

/-- The tiebreak value returned by a check function: an int (straight checks)
or a tuple of ints (all other checks). -/
inductive TieValue where
  | num : Nat → TieValue
  | tup : List Nat → TieValue
  deriving DecidableEq, Repr

/-- Python truthiness of a check function's non-`None` return value:
`0` and the empty tuple are falsy. -/
def truthy : TieValue → Bool
  | .num n => n != 0
  | .tup l => !l.isEmpty

/-- Source `is_flush`: `len(set(card[1] for card in hand)) == 1`. -/
def is_flush (h : Hand) : Bool := (h.map Prod.snd).dedup.length == 1

/-- The descending order on `(count, rank)` pairs used by
`sorted(..., reverse=True)` in `get_groups`: compare counts first, then
ranks, largest first. -/
def gePairs (a b : Nat × Nat) : Prop := b.1 < a.1 ∨ (b.1 = a.1 ∧ b.2 ≤ a.2)

instance : DecidableRel gePairs := fun a b => by
  unfold gePairs; infer_instance

instance : IsTotal (Nat × Nat) gePairs :=
  ⟨fun a b => by unfold gePairs; omega⟩

instance : IsTrans (Nat × Nat) gePairs :=
  ⟨fun a b c hab hbc => by unfold gePairs at *; omega⟩

/-- The `(count, rank)` pairs of `Counter(card[0] for card in hand).items()`:
one pair per distinct rank. -/
def rank_counts (h : Hand) : List (Nat × Nat) :=
  let ranks := h.map Prod.fst
  ranks.dedup.map (fun r => (ranks.count r, r))

/-- The sorted `(count, rank)` list built inside `get_groups`. -/
def sorted_rank_counts (h : Hand) : List (Nat × Nat) :=
  List.insertionSort gePairs (rank_counts h)

/-- Source `get_groups`: sort the `(count, rank)` pairs descending and unzip into
`(groupings, cards)`. `zip(*...)` on an empty sequence raises `ValueError`. -/
def get_groups (h : Hand) : Except PyErr (List Nat × List Nat) :=
  if sorted_rank_counts h = [] then .error .valueError
  else .ok ((sorted_rank_counts h).map Prod.fst, (sorted_rank_counts h).map Prod.snd)

/-- Source `check_highest_card`: the tuple of card values, in hand order. -/
def check_highest_card (h : Hand) : Except PyErr (Option TieValue) :=
  .ok (some (.tup (h.map Prod.fst)))

/-- Source `check_pair`: fires when `groupings[:2] == (2, 1)`. -/
def check_pair (h : Hand) : Except PyErr (Option TieValue) := do
  let gc ← get_groups h
  if gc.1.take 2 = [2, 1] then return (some (.tup gc.2)) else return none

/-- Source `check_two_pairs`: fires when `groupings[:2] == (2, 2)`. -/
def check_two_pairs (h : Hand) : Except PyErr (Option TieValue) := do
  let gc ← get_groups h
  if gc.1.take 2 = [2, 2] then return (some (.tup gc.2)) else return none

/-- Source `check_three_oak`: fires when `groupings[:2] == (3, 1)`. -/
def check_three_oak (h : Hand) : Except PyErr (Option TieValue) := do
  let gc ← get_groups h
  if gc.1.take 2 = [3, 1] then return (some (.tup gc.2)) else return none

/-- Source `check_full_house`: fires when `groupings[:2] == (3, 2)`. -/
def check_full_house (h : Hand) : Except PyErr (Option TieValue) := do
  let gc ← get_groups h
  if gc.1.take 2 = [3, 2] then return (some (.tup gc.2)) else return none

/-- Source `check_four_oak`: fires when `groupings[:2] == (4, 1)`. -/
def check_four_oak (h : Hand) : Except PyErr (Option TieValue) := do
  let gc ← get_groups h
  if gc.1.take 2 = [4, 1] then return (some (.tup gc.2)) else return none

/-- The guard of `check_straight`:
`all((a[0] - b[0]) == 1 for (a, b) in zip(hand[:-1], hand[1:]))`. -/
def straightAdj (h : Hand) : Bool :=
  (h.zip h.tail).all (fun p => (p.1.1 : Int) - (p.2.1 : Int) == 1)

/-- Source `check_straight`: on success returns `hand[0][0]` (an int, not a tuple). -/
def check_straight (h : Hand) : Except PyErr (Option TieValue) :=
  if straightAdj h then
    match h with
    | [] => .error .indexError
    | a :: _ => .ok (some (.num a.1))
  else .ok none

/-- Source `check_flush`: returns `check_highest_card(hand)` when the hand is a flush. -/
def check_flush (h : Hand) : Except PyErr (Option TieValue) :=
  if is_flush h then check_highest_card h else .ok none

/-- Source `check_straight_flush`: returns `check_straight(hand)` when the hand is a
flush. -/
def check_straight_flush (h : Hand) : Except PyErr (Option TieValue) :=
  if is_flush h then check_straight h else .ok none

/-- Source `HandRater.match_fns` after all registrations: sorted by `HandType` value,
strongest first. -/
def match_fns : List (HandType × (Hand → Except PyErr (Option TieValue))) :=
  [(.STRAIGHT_FLUSH, check_straight_flush),
   (.FOUR_OF_A_KIND, check_four_oak),
   (.FULL_HOUSE, check_full_house),
   (.FLUSH, check_flush),
   (.STRAIGHT, check_straight),
   (.THREE_OF_A_KIND, check_three_oak),
   (.TWO_PAIRS, check_two_pairs),
   (.PAIR, check_pair),
   (.HIGH_CARD, check_highest_card)]

/-- The loop of `HandRater.rate_hand`: call each check in order; return
`(rank, value)` at the first truthy value; `None` if no check fires. -/
def rateLoop (h : Hand) :
    List (HandType × (Hand → Except PyErr (Option TieValue))) →
    Except PyErr (Option (HandType × TieValue))
  | [] => .ok none
  | (rank, fn) :: rest =>
    match fn h with
    | .error e => .error e
    | .ok none => rateLoop h rest
    | .ok (some v) => if truthy v then .ok (some (rank, v)) else rateLoop h rest

/-- Source `HandRater.rate_hand`. -/
def rate_hand (h : Hand) : Except PyErr (Option (HandType × TieValue)) :=
  rateLoop h match_fns

/-- Python lexicographic comparison of two int tuples. -/
def pyCmpList : List Nat → List Nat → Ordering
  | [], [] => .eq
  | [], _ :: _ => .lt
  | _ :: _, [] => .gt
  | x :: xs, y :: ys =>
    match compare x y with
    | .eq => pyCmpList xs ys
    | o => o

/-- Python comparison of two tiebreak values; comparing an int with a tuple
raises `TypeError`, modelled as `none`. -/
def pyCmpValue : TieValue → TieValue → Option Ordering
  | .num a, .num b => some (compare a b)
  | .tup a, .tup b => some (pyCmpList a b)
  | _, _ => none

/-- Python comparison of two `(rank, value)` results of `rate_hand`
(tuple comparison: the `HandType` ints first, then the values). -/
def rankedCmp (p q : HandType × TieValue) : Option Ordering :=
  if p.1.val = q.1.val then pyCmpValue p.2 q.2
  else if q.1.val < p.1.val then some .gt
  else some .lt

/-- The winner selection of the main loop:
`"Player 1" if player_1 > player_2 else "Player 2"`. -/
def pick_winner (p q : HandType × TieValue) : Option String :=
  match rankedCmp p q with
  | none => none
  | some o => some (if o = Ordering.gt then "Player 1" else "Player 2")

/-- One iteration of the main loop's scoring: declare the winner and
increment that player's `games_won` tally `(player 1 wins, player 2 wins)`. -/
def game_step (won : Nat × Nat) (p q : HandType × TieValue) :
    Option ((Nat × Nat) × String) :=
  match pick_winner p q with
  | none => none
  | some w =>
    some ((if w = "Player 1" then (won.1 + 1, won.2) else (won.1, won.2 + 1)), w)

/-- A rank character the parser accepts: a digit, or a key of `pictures`
(case-insensitive). -/
def valid_rank_char (c : Char) : Bool :=
  c.isDigit || (pictures.lookup c.toUpper).isSome

/-- View a tiebreak value as the spec's `TiebreakKey` (a list of ints):
the single int of a straight check becomes a one-element key. -/
def tbToList : TieValue → List Nat
  | .num n => [n]
  | .tup l => l

/-- The length of each category's `TiebreakKey` shape, per the spec's
decision table. -/
def key_shape : HandType → Nat
  | .HIGH_CARD => 5
  | .PAIR => 4
  | .TWO_PAIRS => 3
  | .THREE_OF_A_KIND => 3
  | .STRAIGHT => 1
  | .FLUSH => 5
  | .FULL_HOUSE => 2
  | .FOUR_OF_A_KIND => 2
  | .STRAIGHT_FLUSH => 1

/-- Spec-side flush check: "true iff all 5 suits are identical". -/
def spec_flush (h : Hand) : Prop :=
  ∀ s1 ∈ h.map Prod.snd, ∀ s2 ∈ h.map Prod.snd, s1 = s2

instance (h : Hand) : Decidable (spec_flush h) := by
  unfold spec_flush; infer_instance

/-- Spec-side straight check: with the cards sorted by rank descending,
"every adjacent pair differs by exactly 1" (no wraparound). -/
def spec_straight (h : Hand) : Prop :=
  List.Chain' (fun a b => a = b + 1) (h.map Prod.fst)

instance (h : Hand) : Decidable (spec_straight h) := by
  unfold spec_straight; infer_instance

/-- Spec-side group signature construction: "a list of (count, rank) pairs
sorted descending first by count, then by rank". -/
def spec_group_pairs (h : Hand) : List (Nat × Nat) :=
  List.insertionSort gePairs
    ((h.map Prod.fst).dedup.map (fun r => ((h.map Prod.fst).count r, r)))

/-- Spec-side classifier: the decision table of spec §4.2, first match wins,
from strongest to weakest, with the stated `TiebreakKey` for each row. -/
def classify_spec (h : Hand) : HandType × List Nat :=
  let ranks := h.map Prod.fst
  let sig := (spec_group_pairs h).map Prod.fst
  let grpRanks := (spec_group_pairs h).map Prod.snd
  if spec_flush h ∧ spec_straight h then (.STRAIGHT_FLUSH, [ranks.headD 0])
  else if sig.headD 0 = 4 then (.FOUR_OF_A_KIND, grpRanks)
  else if sig = [3, 2] then (.FULL_HOUSE, grpRanks)
  else if spec_flush h then (.FLUSH, ranks)
  else if spec_straight h then (.STRAIGHT, [ranks.headD 0])
  else if sig = [3, 1, 1] then (.THREE_OF_A_KIND, grpRanks)
  else if sig = [2, 2, 1] then (.TWO_PAIRS, grpRanks)
  else if sig = [2, 1, 1, 1] then (.PAIR, grpRanks)
  else (.HIGH_CARD, ranks)

/-! ## Lemmas -/

theorem pyCmpList_self (l : List Nat) : pyCmpList l l = Ordering.eq := by
  induction l with
  | nil => rfl
  | cons x xs ih =>
    have hx : compare x x = Ordering.eq := Nat.compare_eq_eq.mpr rfl
    simp [pyCmpList, hx, ih]

theorem pyCmpValue_self (v : TieValue) : pyCmpValue v v = some Ordering.eq := by
  cases v with
  | num n => simp [pyCmpValue, Nat.compare_eq_eq.mpr rfl]
  | tup l => simp [pyCmpValue, pyCmpList_self]

theorem sorted_rank_counts_perm (h : Hand) :
    List.Perm (sorted_rank_counts h) (rank_counts h) :=
  List.perm_insertionSort gePairs (rank_counts h)

theorem sorted_rank_counts_ne_nil (h : Hand) (hne : h ≠ []) :
    sorted_rank_counts h ≠ [] := by
  intro hs
  have hp := sorted_rank_counts_perm h
  rw [hs] at hp
  have h0 : rank_counts h = [] := hp.symm.eq_nil
  unfold rank_counts at h0
  simp [List.dedup_eq_nil] at h0
  exact hne h0

theorem get_groups_eq (h : Hand) (hne : h ≠ []) :
    get_groups h =
      .ok ((sorted_rank_counts h).map Prod.fst,
        (sorted_rank_counts h).map Prod.snd) := by
  unfold get_groups
  rw [if_neg (sorted_rank_counts_ne_nil h hne)]

/-- The unsorted `(count, rank)` pairs project to the dedup'd counts. -/
theorem rank_counts_map_fst (h : Hand) :
    (rank_counts h).map Prod.fst =
      (h.map Prod.fst).dedup.map (fun r => (h.map Prod.fst).count r) := by
  unfold rank_counts
  rw [List.map_map]
  rfl

theorem sum_dedup_count (l : List Nat) :
    (l.dedup.map (fun a => l.count a)).sum = l.length := by
  have h1 : l.dedup.toFinset.sum (fun a => l.count a) =
      (l.dedup.map (fun a => l.count a)).sum :=
    List.sum_toFinset _ l.nodup_dedup
  have h2 : l.dedup.toFinset = l.toFinset := by
    ext a
    simp [List.mem_toFinset, List.mem_dedup]
  rw [← h1, h2, List.sum_toFinset_count_eq_length]

/-- The group counts sum to the number of cards. -/
theorem counts_sum (h : Hand) :
    ((sorted_rank_counts h).map Prod.fst).sum = h.length := by
  have hp : List.Perm ((sorted_rank_counts h).map Prod.fst)
      ((rank_counts h).map Prod.fst) :=
    (sorted_rank_counts_perm h).map Prod.fst
  rw [hp.sum_eq, rank_counts_map_fst, sum_dedup_count, List.length_map]

/-- Every group count is the multiplicity of a rank that occurs in the hand. -/
theorem mem_counts (h : Hand) (x : Nat)
    (hx : x ∈ (sorted_rank_counts h).map Prod.fst) :
    ∃ r ∈ h.map Prod.fst, (h.map Prod.fst).count r = x := by
  have hp : List.Perm ((sorted_rank_counts h).map Prod.fst)
      ((rank_counts h).map Prod.fst) :=
    (sorted_rank_counts_perm h).map Prod.fst
  rw [hp.mem_iff, rank_counts_map_fst, List.mem_map] at hx
  obtain ⟨r, hr, hcount⟩ := hx
  exact ⟨r, List.mem_dedup.mp hr, hcount⟩

/-- Every group count is positive. -/
theorem counts_pos (h : Hand) (x : Nat)
    (hx : x ∈ (sorted_rank_counts h).map Prod.fst) : 1 ≤ x := by
  obtain ⟨r, hr, hcount⟩ := mem_counts h x hx
  have := List.count_pos_iff.mpr hr
  omega

/-- The group counts are sorted descending. -/
theorem counts_sorted (h : Hand) :
    ((sorted_rank_counts h).map Prod.fst).Sorted (fun a b => b ≤ a) := by
  have hs : (sorted_rank_counts h).Sorted gePairs :=
    List.sorted_insertionSort gePairs (rank_counts h)
  exact List.Pairwise.map Prod.fst
    (fun a b hab => by unfold gePairs at hab; omega) hs

/-- A group count of at least 2 means some rank repeats in the hand. -/
theorem not_nodup_of_big_count (h : Hand) (x : Nat)
    (hx : x ∈ (sorted_rank_counts h).map Prod.fst) (h2 : 2 ≤ x) :
    ¬ (h.map Prod.fst).Nodup := by
  obtain ⟨r, _, hcount⟩ := mem_counts h x hx
  intro hnd
  have := List.nodup_iff_count_le_one.mp hnd r
  omega

/-! Characterisations of the check functions. -/

theorem check_pair_eq (h : Hand) (hne : h ≠ []) :
    check_pair h =
      .ok (if ((sorted_rank_counts h).map Prod.fst).take 2 = [2, 1]
        then some (.tup ((sorted_rank_counts h).map Prod.snd)) else none) := by
  unfold check_pair
  rw [get_groups_eq h hne]
  split <;> simp_all [Bind.bind, Except.bind, Pure.pure, Except.pure]

theorem check_two_pairs_eq (h : Hand) (hne : h ≠ []) :
    check_two_pairs h =
      .ok (if ((sorted_rank_counts h).map Prod.fst).take 2 = [2, 2]
        then some (.tup ((sorted_rank_counts h).map Prod.snd)) else none) := by
  unfold check_two_pairs
  rw [get_groups_eq h hne]
  split <;> simp_all [Bind.bind, Except.bind, Pure.pure, Except.pure]

theorem check_three_oak_eq (h : Hand) (hne : h ≠ []) :
    check_three_oak h =
      .ok (if ((sorted_rank_counts h).map Prod.fst).take 2 = [3, 1]
        then some (.tup ((sorted_rank_counts h).map Prod.snd)) else none) := by
  unfold check_three_oak
  rw [get_groups_eq h hne]
  split <;> simp_all [Bind.bind, Except.bind, Pure.pure, Except.pure]

theorem check_full_house_eq (h : Hand) (hne : h ≠ []) :
    check_full_house h =
      .ok (if ((sorted_rank_counts h).map Prod.fst).take 2 = [3, 2]
        then some (.tup ((sorted_rank_counts h).map Prod.snd)) else none) := by
  unfold check_full_house
  rw [get_groups_eq h hne]
  split <;> simp_all [Bind.bind, Except.bind, Pure.pure, Except.pure]

theorem check_four_oak_eq (h : Hand) (hne : h ≠ []) :
    check_four_oak h =
      .ok (if ((sorted_rank_counts h).map Prod.fst).take 2 = [4, 1]
        then some (.tup ((sorted_rank_counts h).map Prod.snd)) else none) := by
  unfold check_four_oak
  rw [get_groups_eq h hne]
  split <;> simp_all [Bind.bind, Except.bind, Pure.pure, Except.pure]

theorem check_straight_eq_of_false (h : Hand) (hs : straightAdj h = false) :
    check_straight h = .ok none := by
  simp [check_straight, hs]

theorem check_straight_eq_of_cons (a : Card) (t : Hand)
    (hs : straightAdj (a :: t) = true) :
    check_straight (a :: t) = .ok (some (.num a.1)) := by
  simp [check_straight, hs]

theorem check_straight_ok (h : Hand) (hne : h ≠ []) :
    ∃ o, check_straight h = .ok o := by
  match h, hne with
  | a :: t, _ =>
    cases hs : straightAdj (a :: t) with
    | false => exact ⟨none, check_straight_eq_of_false _ hs⟩
    | true => exact ⟨some (.num a.1), check_straight_eq_of_cons a t hs⟩

theorem check_flush_eq (h : Hand) :
    check_flush h =
      .ok (if is_flush h then some (.tup (h.map Prod.fst)) else none) := by
  unfold check_flush check_highest_card
  split <;> simp_all

theorem check_straight_flush_ok (h : Hand) (hne : h ≠ []) :
    ∃ o, check_straight_flush h = .ok o := by
  unfold check_straight_flush
  split
  · exact check_straight_ok h hne
  · exact ⟨none, rfl⟩

/-! Totality of the rating loop. -/

theorem rateLoop_last_total (h : Hand) (hne : h ≠ [])
    (front : List (HandType × (Hand → Except PyErr (Option TieValue))))
    (hfront : ∀ p ∈ front, ∃ o, p.2 h = .ok o) :
    ∃ r v, rateLoop h (front ++ [(.HIGH_CARD, check_highest_card)]) =
      .ok (some (r, v)) := by
  induction front with
  | nil =>
    refine ⟨.HIGH_CARD, .tup (h.map Prod.fst), ?_⟩
    have hmap : h.map Prod.fst ≠ [] := by
      simpa using hne
    simp [rateLoop, check_highest_card, truthy, hmap]
  | cons p rest ih =>
    obtain ⟨rank, fn⟩ := p
    obtain ⟨o, ho⟩ := hfront (rank, fn) (List.mem_cons_self (rank, fn) rest)
    have ho' : fn h = .ok o := ho
    obtain ⟨r, v, hrv⟩ := ih (fun q hq => hfront q (List.mem_cons_of_mem _ hq))
    simp only [List.cons_append, rateLoop]
    rw [ho']
    cases o with
    | none => exact ⟨r, v, hrv⟩
    | some tv =>
      by_cases ht : truthy tv
      · exact ⟨rank, tv, by simp [ht]⟩
      · simp only [ht, if_false]
        exact ⟨r, v, hrv⟩

/-- The function `rate_hand` never fails and never returns `None` on a nonempty hand. -/
theorem rate_hand_total (h : Hand) (hne : h ≠ []) :
    ∃ r v, rate_hand h = .ok (some (r, v)) := by
  have hfy : match_fns =
      [(.STRAIGHT_FLUSH, check_straight_flush),
       (.FOUR_OF_A_KIND, check_four_oak),
       (.FULL_HOUSE, check_full_house),
       (.FLUSH, check_flush),
       (.STRAIGHT, check_straight),
       (.THREE_OF_A_KIND, check_three_oak),
       (.TWO_PAIRS, check_two_pairs),
       (.PAIR, check_pair)] ++ [(.HIGH_CARD, check_highest_card)] := rfl
  rw [rate_hand, hfy]
  apply rateLoop_last_total h hne
  intro p hp
  simp only [List.mem_cons, List.not_mem_nil, or_false] at hp
  rcases hp with rfl | rfl | rfl | rfl | rfl | rfl | rfl | rfl
  · exact check_straight_flush_ok h hne
  · exact ⟨_, check_four_oak_eq h hne⟩
  · exact ⟨_, check_full_house_eq h hne⟩
  · exact ⟨_, check_flush_eq h⟩
  · exact check_straight_ok h hne
  · exact ⟨_, check_three_oak_eq h hne⟩
  · exact ⟨_, check_two_pairs_eq h hne⟩
  · exact ⟨_, check_pair_eq h hne⟩

/-! Straight and flush facts. -/

theorem straightAdj_cons (a b : Card) (t : Hand) :
    straightAdj (a :: b :: t) =
      ((((a.1 : Int) - (b.1 : Int)) == 1) && straightAdj (b :: t)) := rfl

theorem straight_chain (h : Hand) (hs : straightAdj h = true) :
    List.Chain' (fun x y : Nat => y < x) (h.map Prod.fst) := by
  induction h with
  | nil => simp
  | cons a t ih =>
    cases t with
    | nil => simp
    | cons b t2 =>
      rw [straightAdj_cons] at hs
      simp only [Bool.and_eq_true, beq_iff_eq] at hs
      obtain ⟨h1, h2⟩ := hs
      simp only [List.map_cons] at ih ⊢
      exact List.chain'_cons.mpr ⟨by omega, ih h2⟩

theorem straight_nodup (h : Hand) (hs : straightAdj h = true) :
    (h.map Prod.fst).Nodup := by
  haveI : IsTrans Nat (fun x y : Nat => y < x) :=
    ⟨fun a b c h1 h2 => lt_trans h2 h1⟩
  have hp : List.Pairwise (fun x y : Nat => y < x) (h.map Prod.fst) :=
    List.chain'_iff_pairwise.mp (straight_chain h hs)
  exact hp.imp (fun hxy => Nat.ne_of_gt hxy)

theorem no_straight_of_dup (h : Hand) (x : Nat)
    (hx : x ∈ (sorted_rank_counts h).map Prod.fst) (h2 : 2 ≤ x) :
    straightAdj h = false := by
  cases hsa : straightAdj h with
  | false => rfl
  | true =>
    exact absurd (straight_nodup h hsa) (not_nodup_of_big_count h x hx h2)

theorem check_straight_flush_eq_of_not_straight (h : Hand)
    (hstr : straightAdj h = false) : check_straight_flush h = .ok none := by
  unfold check_straight_flush
  split
  · exact check_straight_eq_of_false h hstr
  · rfl

theorem is_flush_iff_spec (h : Hand) (hne : h ≠ []) :
    is_flush h = true ↔ spec_flush h := by
  unfold is_flush spec_flush
  constructor
  · intro hf x hx y hy
    rw [beq_iff_eq, List.length_eq_one] at hf
    obtain ⟨s, hss⟩ := hf
    have hx' : x = s := by
      have := List.mem_dedup.mpr hx
      rw [hss] at this
      simpa using this
    have hy' : y = s := by
      have := List.mem_dedup.mpr hy
      rw [hss] at this
      simpa using this
    rw [hx', hy']
  · intro hall
    rw [beq_iff_eq]
    cases hd : (h.map Prod.snd).dedup with
    | nil =>
      rw [List.dedup_eq_nil] at hd
      simp only [List.map_eq_nil_iff] at hd
      exact absurd hd hne
    | cons s t =>
      cases t with
      | nil => rfl
      | cons s2 t2 =>
        have hsmem : s ∈ h.map Prod.snd :=
          List.mem_dedup.mp (by rw [hd]; exact List.mem_cons_self s _)
        have hs2mem : s2 ∈ h.map Prod.snd :=
          List.mem_dedup.mp
            (by rw [hd]; exact List.mem_cons_of_mem s (List.mem_cons_self s2 t2))
        have heq : s = s2 := hall s hsmem s2 hs2mem
        have hnd := (h.map Prod.snd).nodup_dedup
        rw [hd, List.nodup_cons] at hnd
        exact absurd (heq ▸ List.mem_cons_self s2 t2) hnd.1

theorem straightAdj_iff_spec (h : Hand) :
    straightAdj h = true ↔ spec_straight h := by
  unfold spec_straight
  induction h with
  | nil => simp [straightAdj]
  | cons a t ih =>
    cases t with
    | nil => simp [straightAdj]
    | cons b t2 =>
      rw [straightAdj_cons]
      simp only [List.map_cons, List.chain'_cons, Bool.and_eq_true, beq_iff_eq]
      simp only [List.map_cons] at ih
      exact and_congr ⟨fun hh => by omega, fun hh => by omega⟩ ih

/-! The possible group signatures of a 5-card hand. -/

theorem counts_enum (g : List Nat) (hsort : g.Sorted (fun a b => b ≤ a))
    (hpos : ∀ x ∈ g, 1 ≤ x) (hsum : g.sum = 5) :
    g = [5] ∨ g = [4, 1] ∨ g = [3, 2] ∨ g = [3, 1, 1] ∨ g = [2, 2, 1] ∨
    g = [2, 1, 1, 1] ∨ g = [1, 1, 1, 1, 1] := by
  rcases g with _ | ⟨a, g⟩
  · simp at hsum
  rcases g with _ | ⟨b, g⟩
  · have ha : a = 5 := by simpa using hsum
    subst ha
    exact Or.inl rfl
  rcases g with _ | ⟨c, g⟩
  · simp only [List.sorted_cons, List.mem_cons, List.mem_singleton,
      List.not_mem_nil] at hsort
    have ha : 1 ≤ a := hpos a (by simp)
    have hb : 1 ≤ b := hpos b (by simp)
    have hsum' : a + b = 5 := by simpa using hsum
    have hd : (a = 4 ∧ b = 1) ∨ (a = 3 ∧ b = 2) := by
      rcases hsort with ⟨hba, -⟩
      have := hba b (Or.inl rfl)
      omega
    rcases hd with ⟨rfl, rfl⟩ | ⟨rfl, rfl⟩
    · exact Or.inr (Or.inl rfl)
    · exact Or.inr (Or.inr (Or.inl rfl))
  rcases g with _ | ⟨d, g⟩
  · simp only [List.sorted_cons, List.mem_cons, List.mem_singleton,
      List.not_mem_nil] at hsort
    have ha : 1 ≤ a := hpos a (by simp)
    have hb : 1 ≤ b := hpos b (by simp)
    have hc : 1 ≤ c := hpos c (by simp)
    have hsum' : a + b + c = 5 := by simpa [Nat.add_assoc] using hsum
    have hba : b ≤ a := by
      rcases hsort with ⟨hx, -⟩
      exact hx b (Or.inl rfl)
    have hcb : c ≤ b := by
      rcases hsort with ⟨-, hy, -⟩
      exact hy c (Or.inl rfl)
    have hd : (a = 3 ∧ b = 1 ∧ c = 1) ∨ (a = 2 ∧ b = 2 ∧ c = 1) := by omega
    rcases hd with ⟨rfl, rfl, rfl⟩ | ⟨rfl, rfl, rfl⟩
    · exact Or.inr (Or.inr (Or.inr (Or.inl rfl)))
    · exact Or.inr (Or.inr (Or.inr (Or.inr (Or.inl rfl))))
  rcases g with _ | ⟨e, g⟩
  · simp only [List.sorted_cons, List.mem_cons, List.mem_singleton,
      List.not_mem_nil] at hsort
    have ha : 1 ≤ a := hpos a (by simp)
    have hb : 1 ≤ b := hpos b (by simp)
    have hc : 1 ≤ c := hpos c (by simp)
    have hdd : 1 ≤ d := hpos d (by simp)
    have hsum' : a + b + c + d = 5 := by simpa [Nat.add_assoc] using hsum
    have hba : b ≤ a := by
      rcases hsort with ⟨hx, -⟩
      exact hx b (Or.inl rfl)
    have hcb : c ≤ b := by
      rcases hsort with ⟨-, hy, -⟩
      exact hy c (Or.inl rfl)
    have hdc : d ≤ c := by
      rcases hsort with ⟨-, -, hz, -⟩
      exact hz d (Or.inl rfl)
    have hd : a = 2 ∧ b = 1 ∧ c = 1 ∧ d = 1 := by omega
    rcases hd with ⟨rfl, rfl, rfl, rfl⟩
    exact Or.inr (Or.inr (Or.inr (Or.inr (Or.inr (Or.inl rfl)))))
  rcases g with _ | ⟨f, g⟩
  · have ha : 1 ≤ a := hpos a (by simp)
    have hb : 1 ≤ b := hpos b (by simp)
    have hc : 1 ≤ c := hpos c (by simp)
    have hdd : 1 ≤ d := hpos d (by simp)
    have he : 1 ≤ e := hpos e (by simp)
    have hsum' : a + b + c + d + e = 5 := by simpa [Nat.add_assoc] using hsum
    have hd : a = 1 ∧ b = 1 ∧ c = 1 ∧ d = 1 ∧ e = 1 := by omega
    rcases hd with ⟨rfl, rfl, rfl, rfl, rfl⟩
    exact Or.inr (Or.inr (Or.inr (Or.inr (Or.inr (Or.inr rfl)))))
  · have ha : 1 ≤ a := hpos a (by simp)
    have hb : 1 ≤ b := hpos b (by simp)
    have hc : 1 ≤ c := hpos c (by simp)
    have hdd : 1 ≤ d := hpos d (by simp)
    have he : 1 ≤ e := hpos e (by simp)
    have hf : 1 ≤ f := hpos f (by simp)
    have hsum' : a + b + c + d + e + f + g.sum = 5 := by
      simpa [Nat.add_assoc] using hsum
    omega

theorem spec_group_pairs_eq (h : Hand) :
    spec_group_pairs h = sorted_rank_counts h := rfl

theorem check_straight_eq_of_true (h : Hand) (hne : h ≠ [])
    (hs : straightAdj h = true) :
    check_straight h = .ok (some (.num ((h.map Prod.fst).headD 0))) := by
  match h, hne with
  | a :: t, _ => exact check_straight_eq_of_cons a t hs

theorem check_straight_flush_eq_of_flush_straight (h : Hand) (hne : h ≠ [])
    (hf : is_flush h = true) (hs : straightAdj h = true) :
    check_straight_flush h = .ok (some (.num ((h.map Prod.fst).headD 0))) := by
  unfold check_straight_flush
  rw [if_pos hf]
  exact check_straight_eq_of_true h hne hs

theorem check_straight_flush_eq_of_not_flush (h : Hand)
    (hf : ¬ is_flush h = true) : check_straight_flush h = .ok none := by
  unfold check_straight_flush
  rw [if_neg hf]

theorem straight_head_pos (h : Hand) (h2 : 2 ≤ h.length)
    (hs : straightAdj h = true) : 1 ≤ (h.map Prod.fst).headD 0 := by
  match h, h2 with
  | a :: b :: t, _ =>
    rw [straightAdj_cons] at hs
    simp only [Bool.and_eq_true, beq_iff_eq] at hs
    have h1 := hs.1
    simp only [List.map_cons, List.headD_cons]
    omega

theorem not_spec_straight_of_adj_false (h : Hand)
    (hstr : straightAdj h = false) : ¬ spec_straight h := by
  rw [← straightAdj_iff_spec]
  simp [hstr]

theorem not_spec_flush_of_flush_false (h : Hand) (hne : h ≠ [])
    (hf : ¬ is_flush h = true) : ¬ spec_flush h :=
  fun hsp => hf ((is_flush_iff_spec h hne).mpr hsp)

theorem rateLoop_cons_none (h : Hand) (rank : HandType)
    (fn : Hand → Except PyErr (Option TieValue))
    (rest : List (HandType × (Hand → Except PyErr (Option TieValue))))
    (hfn : fn h = .ok none) :
    rateLoop h ((rank, fn) :: rest) = rateLoop h rest := by
  simp [rateLoop, hfn]

theorem rateLoop_cons_truthy (h : Hand) (rank : HandType)
    (fn : Hand → Except PyErr (Option TieValue))
    (rest : List (HandType × (Hand → Except PyErr (Option TieValue))))
    (tv : TieValue) (hfn : fn h = .ok (some tv)) (ht : truthy tv = true) :
    rateLoop h ((rank, fn) :: rest) = .ok (some (rank, tv)) := by
  simp [rateLoop, hfn, ht]

theorem truthy_num_of_pos (n : Nat) (hn : 1 ≤ n) : truthy (.num n) = true := by
  simp only [truthy, bne_iff_ne, ne_eq]
  omega

/-- The central case analysis: on every 5-card hand, `rate_hand` returns
exactly the category and (as a list) the tiebreak key of the spec's decision
table, and the key length matches the category's shape. -/
theorem rate_hand_spec (h : Hand) (h5 : h.length = 5) :
    ∃ v, rate_hand h = .ok (some ((classify_spec h).1, v)) ∧
      tbToList v = (classify_spec h).2 ∧
      (classify_spec h).2.length = key_shape (classify_spec h).1 := by
  have hne : h ≠ [] := by
    intro he
    rw [he] at h5
    simp at h5
  have hmapne : h.map Prod.fst ≠ [] := by simpa using hne
  have hrklen : (h.map Prod.fst).length = 5 := by simpa using h5
  have hcne : (sorted_rank_counts h).map Prod.snd ≠ [] := by
    intro hc
    rw [List.map_eq_nil_iff] at hc
    exact sorted_rank_counts_ne_nil h hne hc
  have hg5 : ((sorted_rank_counts h).map Prod.fst).sum = 5 := by
    rw [counts_sum, h5]
  have henum := counts_enum _ (counts_sorted h) (counts_pos h) hg5
  rcases henum with hG | hG | hG | hG | hG | hG | hG
  · -- signature [5]: five cards of one rank; flush or high card
    have hstr : straightAdj h = false :=
      no_straight_of_dup h 5 (by rw [hG]; simp) (by omega)
    have hSF := check_straight_flush_eq_of_not_straight h hstr
    have hST := check_straight_eq_of_false h hstr
    have h4K : check_four_oak h = .ok none := by
      rw [check_four_oak_eq h hne, hG]; rfl
    have hFH : check_full_house h = .ok none := by
      rw [check_full_house_eq h hne, hG]; rfl
    have h3K : check_three_oak h = .ok none := by
      rw [check_three_oak_eq h hne, hG]; rfl
    have hTP : check_two_pairs h = .ok none := by
      rw [check_two_pairs_eq h hne, hG]; rfl
    have hPR : check_pair h = .ok none := by
      rw [check_pair_eq h hne, hG]; rfl
    have hspS := not_spec_straight_of_adj_false h hstr
    by_cases hf : is_flush h = true
    · have hFL : check_flush h = .ok (some (.tup (h.map Prod.fst))) := by
        rw [check_flush_eq h, if_pos hf]
      have hspF : spec_flush h := (is_flush_iff_spec h hne).mp hf
      have hcs : classify_spec h = (.FLUSH, h.map Prod.fst) := by
        simp [classify_spec, spec_group_pairs_eq, hG, hspF, hspS]
      refine ⟨.tup (h.map Prod.fst), ?_, ?_, ?_⟩
      · rw [hcs]
        simp [rate_hand, match_fns, rateLoop, hSF, h4K, hFH, hFL, truthy, hmapne]
      · rw [hcs]; rfl
      · rw [hcs]; simp [key_shape, hrklen]
    · have hFL : check_flush h = .ok none := by
        rw [check_flush_eq h, if_neg hf]
      have hspF := not_spec_flush_of_flush_false h hne hf
      have hcs : classify_spec h = (.HIGH_CARD, h.map Prod.fst) := by
        simp [classify_spec, spec_group_pairs_eq, hG, hspF, hspS]
      refine ⟨.tup (h.map Prod.fst), ?_, ?_, ?_⟩
      · rw [hcs]
        simp [rate_hand, match_fns, rateLoop, hSF, h4K, hFH, hFL, hST, h3K,
          hTP, hPR, check_highest_card, truthy, hmapne]
      · rw [hcs]; rfl
      · rw [hcs]; simp [key_shape, hrklen]
  · -- signature [4, 1]: four of a kind
    have hstr : straightAdj h = false :=
      no_straight_of_dup h 4 (by rw [hG]; simp) (by omega)
    have hclen : ((sorted_rank_counts h).map Prod.snd).length = 2 := by
      have h1 := congrArg List.length hG
      simp only [List.length_map] at h1 ⊢
      simpa using h1
    have hSF := check_straight_flush_eq_of_not_straight h hstr
    have h4K : check_four_oak h =
        .ok (some (.tup ((sorted_rank_counts h).map Prod.snd))) := by
      rw [check_four_oak_eq h hne, hG]; rfl
    have hspS := not_spec_straight_of_adj_false h hstr
    have hcs : classify_spec h =
        (.FOUR_OF_A_KIND, (sorted_rank_counts h).map Prod.snd) := by
      simp [classify_spec, spec_group_pairs_eq, hG, hspS]
    refine ⟨.tup ((sorted_rank_counts h).map Prod.snd), ?_, ?_, ?_⟩
    · rw [hcs]
      simp [rate_hand, match_fns, rateLoop, hSF, h4K, truthy, hcne]
    · rw [hcs]; rfl
    · rw [hcs]; simp [key_shape, hclen]
  · -- signature [3, 2]: full house
    have hstr : straightAdj h = false :=
      no_straight_of_dup h 3 (by rw [hG]; simp) (by omega)
    have hclen : ((sorted_rank_counts h).map Prod.snd).length = 2 := by
      have h1 := congrArg List.length hG
      simp only [List.length_map] at h1 ⊢
      simpa using h1
    have hSF := check_straight_flush_eq_of_not_straight h hstr
    have h4K : check_four_oak h = .ok none := by
      rw [check_four_oak_eq h hne, hG]; rfl
    have hFH : check_full_house h =
        .ok (some (.tup ((sorted_rank_counts h).map Prod.snd))) := by
      rw [check_full_house_eq h hne, hG]; rfl
    have hspS := not_spec_straight_of_adj_false h hstr
    have hcs : classify_spec h =
        (.FULL_HOUSE, (sorted_rank_counts h).map Prod.snd) := by
      simp [classify_spec, spec_group_pairs_eq, hG, hspS]
    refine ⟨.tup ((sorted_rank_counts h).map Prod.snd), ?_, ?_, ?_⟩
    · rw [hcs]
      simp [rate_hand, match_fns, rateLoop, hSF, h4K, hFH, truthy, hcne]
    · rw [hcs]; rfl
    · rw [hcs]; simp [key_shape, hclen]
  · -- signature [3, 1, 1]: three of a kind, or a flush of it
    have hstr : straightAdj h = false :=
      no_straight_of_dup h 3 (by rw [hG]; simp) (by omega)
    have hclen : ((sorted_rank_counts h).map Prod.snd).length = 3 := by
      have h1 := congrArg List.length hG
      simp only [List.length_map] at h1 ⊢
      simpa using h1
    have hSF := check_straight_flush_eq_of_not_straight h hstr
    have hST := check_straight_eq_of_false h hstr
    have h4K : check_four_oak h = .ok none := by
      rw [check_four_oak_eq h hne, hG]; rfl
    have hFH : check_full_house h = .ok none := by
      rw [check_full_house_eq h hne, hG]; rfl
    have h3K : check_three_oak h =
        .ok (some (.tup ((sorted_rank_counts h).map Prod.snd))) := by
      rw [check_three_oak_eq h hne, hG]; rfl
    have hspS := not_spec_straight_of_adj_false h hstr
    by_cases hf : is_flush h = true
    · have hFL : check_flush h = .ok (some (.tup (h.map Prod.fst))) := by
        rw [check_flush_eq h, if_pos hf]
      have hspF : spec_flush h := (is_flush_iff_spec h hne).mp hf
      have hcs : classify_spec h = (.FLUSH, h.map Prod.fst) := by
        simp [classify_spec, spec_group_pairs_eq, hG, hspF, hspS]
      refine ⟨.tup (h.map Prod.fst), ?_, ?_, ?_⟩
      · rw [hcs]
        simp [rate_hand, match_fns, rateLoop, hSF, h4K, hFH, hFL, truthy, hmapne]
      · rw [hcs]; rfl
      · rw [hcs]; simp [key_shape, hrklen]
    · have hFL : check_flush h = .ok none := by
        rw [check_flush_eq h, if_neg hf]
      have hspF := not_spec_flush_of_flush_false h hne hf
      have hcs : classify_spec h =
          (.THREE_OF_A_KIND, (sorted_rank_counts h).map Prod.snd) := by
        simp [classify_spec, spec_group_pairs_eq, hG, hspF, hspS]
      refine ⟨.tup ((sorted_rank_counts h).map Prod.snd), ?_, ?_, ?_⟩
      · rw [hcs]
        simp [rate_hand, match_fns, rateLoop, hSF, h4K, hFH, hFL, hST, h3K,
          truthy, hcne]
      · rw [hcs]; rfl
      · rw [hcs]; simp [key_shape, hclen]
  · -- signature [2, 2, 1]: two pairs, or a flush of it
    have hstr : straightAdj h = false :=
      no_straight_of_dup h 2 (by rw [hG]; simp) (by omega)
    have hclen : ((sorted_rank_counts h).map Prod.snd).length = 3 := by
      have h1 := congrArg List.length hG
      simp only [List.length_map] at h1 ⊢
      simpa using h1
    have hSF := check_straight_flush_eq_of_not_straight h hstr
    have hST := check_straight_eq_of_false h hstr
    have h4K : check_four_oak h = .ok none := by
      rw [check_four_oak_eq h hne, hG]; rfl
    have hFH : check_full_house h = .ok none := by
      rw [check_full_house_eq h hne, hG]; rfl
    have h3K : check_three_oak h = .ok none := by
      rw [check_three_oak_eq h hne, hG]; rfl
    have hTP : check_two_pairs h =
        .ok (some (.tup ((sorted_rank_counts h).map Prod.snd))) := by
      rw [check_two_pairs_eq h hne, hG]; rfl
    have hspS := not_spec_straight_of_adj_false h hstr
    by_cases hf : is_flush h = true
    · have hFL : check_flush h = .ok (some (.tup (h.map Prod.fst))) := by
        rw [check_flush_eq h, if_pos hf]
      have hspF : spec_flush h := (is_flush_iff_spec h hne).mp hf
      have hcs : classify_spec h = (.FLUSH, h.map Prod.fst) := by
        simp [classify_spec, spec_group_pairs_eq, hG, hspF, hspS]
      refine ⟨.tup (h.map Prod.fst), ?_, ?_, ?_⟩
      · rw [hcs]
        simp [rate_hand, match_fns, rateLoop, hSF, h4K, hFH, hFL, truthy, hmapne]
      · rw [hcs]; rfl
      · rw [hcs]; simp [key_shape, hrklen]
    · have hFL : check_flush h = .ok none := by
        rw [check_flush_eq h, if_neg hf]
      have hspF := not_spec_flush_of_flush_false h hne hf
      have hcs : classify_spec h =
          (.TWO_PAIRS, (sorted_rank_counts h).map Prod.snd) := by
        simp [classify_spec, spec_group_pairs_eq, hG, hspF, hspS]
      refine ⟨.tup ((sorted_rank_counts h).map Prod.snd), ?_, ?_, ?_⟩
      · rw [hcs]
        simp [rate_hand, match_fns, rateLoop, hSF, h4K, hFH, hFL, hST, h3K,
          hTP, truthy, hcne]
      · rw [hcs]; rfl
      · rw [hcs]; simp [key_shape, hclen]
  · -- signature [2, 1, 1, 1]: a pair, or a flush of it
    have hstr : straightAdj h = false :=
      no_straight_of_dup h 2 (by rw [hG]; simp) (by omega)
    have hclen : ((sorted_rank_counts h).map Prod.snd).length = 4 := by
      have h1 := congrArg List.length hG
      simp only [List.length_map] at h1 ⊢
      simpa using h1
    have hSF := check_straight_flush_eq_of_not_straight h hstr
    have hST := check_straight_eq_of_false h hstr
    have h4K : check_four_oak h = .ok none := by
      rw [check_four_oak_eq h hne, hG]; rfl
    have hFH : check_full_house h = .ok none := by
      rw [check_full_house_eq h hne, hG]; rfl
    have h3K : check_three_oak h = .ok none := by
      rw [check_three_oak_eq h hne, hG]; rfl
    have hTP : check_two_pairs h = .ok none := by
      rw [check_two_pairs_eq h hne, hG]; rfl
    have hPR : check_pair h =
        .ok (some (.tup ((sorted_rank_counts h).map Prod.snd))) := by
      rw [check_pair_eq h hne, hG]; rfl
    have hspS := not_spec_straight_of_adj_false h hstr
    by_cases hf : is_flush h = true
    · have hFL : check_flush h = .ok (some (.tup (h.map Prod.fst))) := by
        rw [check_flush_eq h, if_pos hf]
      have hspF : spec_flush h := (is_flush_iff_spec h hne).mp hf
      have hcs : classify_spec h = (.FLUSH, h.map Prod.fst) := by
        simp [classify_spec, spec_group_pairs_eq, hG, hspF, hspS]
      refine ⟨.tup (h.map Prod.fst), ?_, ?_, ?_⟩
      · rw [hcs]
        simp [rate_hand, match_fns, rateLoop, hSF, h4K, hFH, hFL, truthy, hmapne]
      · rw [hcs]; rfl
      · rw [hcs]; simp [key_shape, hrklen]
    · have hFL : check_flush h = .ok none := by
        rw [check_flush_eq h, if_neg hf]
      have hspF := not_spec_flush_of_flush_false h hne hf
      have hcs : classify_spec h =
          (.PAIR, (sorted_rank_counts h).map Prod.snd) := by
        simp [classify_spec, spec_group_pairs_eq, hG, hspF, hspS]
      refine ⟨.tup ((sorted_rank_counts h).map Prod.snd), ?_, ?_, ?_⟩
      · rw [hcs]
        simp [rate_hand, match_fns, rateLoop, hSF, h4K, hFH, hFL, hST, h3K,
          hTP, hPR, truthy, hcne]
      · rw [hcs]; rfl
      · rw [hcs]; simp [key_shape, hclen]
  · -- signature [1, 1, 1, 1, 1]: no groups; four flush/straight combinations
    have h4K : check_four_oak h = .ok none := by
      rw [check_four_oak_eq h hne, hG]; rfl
    have hFH : check_full_house h = .ok none := by
      rw [check_full_house_eq h hne, hG]; rfl
    have h3K : check_three_oak h = .ok none := by
      rw [check_three_oak_eq h hne, hG]; rfl
    have hTP : check_two_pairs h = .ok none := by
      rw [check_two_pairs_eq h hne, hG]; rfl
    have hPR : check_pair h = .ok none := by
      rw [check_pair_eq h hne, hG]; rfl
    by_cases hstr : straightAdj h = true
    · have hhead : 1 ≤ (h.map Prod.fst).headD 0 :=
        straight_head_pos h (by omega) hstr
      have hspS : spec_straight h := (straightAdj_iff_spec h).mp hstr
      by_cases hf : is_flush h = true
      · have hSF : check_straight_flush h =
            .ok (some (.num ((h.map Prod.fst).headD 0))) :=
          check_straight_flush_eq_of_flush_straight h hne hf hstr
        have hspF : spec_flush h := (is_flush_iff_spec h hne).mp hf
        have hcs : classify_spec h =
            (.STRAIGHT_FLUSH, [(h.map Prod.fst).headD 0]) := by
          simp [classify_spec, spec_group_pairs_eq, hG, hspF, hspS]
        refine ⟨.num ((h.map Prod.fst).headD 0), ?_, ?_, ?_⟩
        · rw [hcs]
          have htr : truthy (.num ((h.map Prod.fst).headD 0)) = true :=
            truthy_num_of_pos _ hhead
          unfold rate_hand match_fns
          rw [rateLoop_cons_truthy h _ check_straight_flush _ _ hSF htr]
        · rw [hcs]; rfl
        · rw [hcs]; simp [key_shape]
      · have hSF : check_straight_flush h = .ok none :=
          check_straight_flush_eq_of_not_flush h hf
        have hFL : check_flush h = .ok none := by
          rw [check_flush_eq h, if_neg hf]
        have hST : check_straight h =
            .ok (some (.num ((h.map Prod.fst).headD 0))) :=
          check_straight_eq_of_true h hne hstr
        have hspF := not_spec_flush_of_flush_false h hne hf
        have hcs : classify_spec h =
            (.STRAIGHT, [(h.map Prod.fst).headD 0]) := by
          simp [classify_spec, spec_group_pairs_eq, hG, hspF, hspS]
        refine ⟨.num ((h.map Prod.fst).headD 0), ?_, ?_, ?_⟩
        · rw [hcs]
          have htr : truthy (.num ((h.map Prod.fst).headD 0)) = true :=
            truthy_num_of_pos _ hhead
          unfold rate_hand match_fns
          rw [rateLoop_cons_none h _ check_straight_flush _ hSF,
            rateLoop_cons_none h _ check_four_oak _ h4K,
            rateLoop_cons_none h _ check_full_house _ hFH,
            rateLoop_cons_none h _ check_flush _ hFL,
            rateLoop_cons_truthy h _ check_straight _ _ hST htr]
        · rw [hcs]; rfl
        · rw [hcs]; simp [key_shape]
    · have hstr' : straightAdj h = false := by simpa using hstr
      have hST := check_straight_eq_of_false h hstr'
      have hSF := check_straight_flush_eq_of_not_straight h hstr'
      have hspS := not_spec_straight_of_adj_false h hstr'
      by_cases hf : is_flush h = true
      · have hFL : check_flush h = .ok (some (.tup (h.map Prod.fst))) := by
          rw [check_flush_eq h, if_pos hf]
        have hspF : spec_flush h := (is_flush_iff_spec h hne).mp hf
        have hcs : classify_spec h = (.FLUSH, h.map Prod.fst) := by
          simp [classify_spec, spec_group_pairs_eq, hG, hspF, hspS]
        refine ⟨.tup (h.map Prod.fst), ?_, ?_, ?_⟩
        · rw [hcs]
          simp [rate_hand, match_fns, rateLoop, hSF, h4K, hFH, hFL, truthy,
            hmapne]
        · rw [hcs]; rfl
        · rw [hcs]; simp [key_shape, hrklen]
      · have hFL : check_flush h = .ok none := by
          rw [check_flush_eq h, if_neg hf]
        have hspF := not_spec_flush_of_flush_false h hne hf
        have hcs : classify_spec h = (.HIGH_CARD, h.map Prod.fst) := by
          simp [classify_spec, spec_group_pairs_eq, hG, hspF, hspS]
        refine ⟨.tup (h.map Prod.fst), ?_, ?_, ?_⟩
        · rw [hcs]
          simp [rate_hand, match_fns, rateLoop, hSF, h4K, hFH, hFL, hST, h3K,
            hTP, hPR, check_highest_card, truthy, hmapne]
        · rw [hcs]; rfl
        · rw [hcs]; simp [key_shape, hrklen]

/-! ## Claim theorems -/

/-- C5: the ace-low hand A,2,3,4,5 (mixed suits) is not recognised by the
straight check and is classified as HighCard with key [14, 5, 4, 3, 2]. -/
theorem c5_ace_low_is_high_card :
    check_straight [(14,'H'),(5,'C'),(4,'D'),(3,'S'),(2,'H')] = .ok none ∧
    rate_hand [(14,'H'),(5,'C'),(4,'D'),(3,'S'),(2,'H')] =
      .ok (some (.HIGH_CARD, .tup [14, 5, 4, 3, 2])) :=
  ⟨rfl, rfl⟩

/-- C6: when two rated hands have different hand types, comparison is decided
by the `HandType` value alone: the higher category always compares greater,
whatever the tiebreak values are. -/
theorem c6_category_dominates (h1 h2 : Hand) (t1 t2 : HandType)
    (v1 v2 : TieValue)
    (hr1 : rate_hand h1 = .ok (some (t1, v1)))
    (hr2 : rate_hand h2 = .ok (some (t2, v2)))
    (hlt : t2.val < t1.val) :
    rankedCmp (t1, v1) (t2, v2) = some Ordering.gt := by
  show (if t1.val = t2.val then pyCmpValue v1 v2
        else if t2.val < t1.val then some Ordering.gt else some Ordering.lt) =
      some Ordering.gt
  rw [if_neg (by omega), if_pos hlt]

/-- Witness for C6: a straight flush beats four of a kind. -/
theorem c6_witness :
    rankedCmp (.STRAIGHT_FLUSH, .num 14) (.FOUR_OF_A_KIND, .tup [9, 2]) =
      some Ordering.gt :=
  c6_category_dominates
    [(14,'H'),(13,'H'),(12,'H'),(11,'H'),(10,'H')]
    [(9,'H'),(9,'D'),(9,'S'),(9,'C'),(2,'H')]
    _ _ _ _ rfl rfl (by decide)

/-- C7: comparing a hand's rating with itself yields Equal, and Equal is an
ordinary outcome (`some`, not the `TypeError` case `none`). -/
theorem c7_compare_refl (h : Hand) (p : HandType × TieValue)
    (hp : rate_hand h = .ok (some p)) :
    rankedCmp p p = some Ordering.eq := by
  simp [rankedCmp, pyCmpValue_self]

/-- Witness for C7 at the pair hand of spec scenario 1. -/
theorem c7_witness :
    rankedCmp (.PAIR, .tup [5, 13, 7, 6]) (.PAIR, .tup [5, 13, 7, 6]) =
      some Ordering.eq :=
  c7_compare_refl [(13,'D'),(7,'S'),(6,'S'),(5,'H'),(5,'C')] _ rfl

/-- C10: when the two rated hands compare as exactly equal, the main loop's
strict greater-than test declares Player 2 the winner and credits Player 2
with the game. -/
theorem c10_tie_goes_to_player_2 (won : Nat × Nat) (p q : HandType × TieValue)
    (heq : rankedCmp p q = some Ordering.eq) :
    game_step won p q = some ((won.1, won.2 + 1), "Player 2") := by
  simp [game_step, pick_winner, heq]

/-- Witness for C10: two identical pair ratings. -/
theorem c10_witness :
    game_step (0, 0) (.PAIR, .tup [5, 13, 7, 6]) (.PAIR, .tup [5, 13, 7, 6]) =
      some ((0, 1), "Player 2") :=
  c10_tie_goes_to_player_2 (0, 0) _ _ rfl

/-- Counterexample to C1: a 4-card hand does not fail classification; the code
has no size validation and rates it as an ordinary hand. -/
theorem c1_counterexample :
    ([(13,'D'),(7,'S'),(6,'S'),(5,'H')] : Hand).length = 4 ∧
    rate_hand [(13,'D'),(7,'S'),(6,'S'),(5,'H')] =
      .ok (some (.HIGH_CARD, .tup [13, 7, 6, 5])) :=
  ⟨rfl, rfl⟩

/-- C1 amended: `rate_hand` performs no hand-size validation; a 4-card hand is
classified normally and returns a ranked result instead of failing. -/
theorem c1_no_size_validation (h : Hand) (h4 : h.length = 4) :
    ∃ r v, rate_hand h = .ok (some (r, v)) :=
  rate_hand_total h (by
    intro he
    rw [he] at h4
    simp at h4)

/-- Witness for C1 at a concrete 4-card hand. -/
theorem c1_witness :
    ∃ r v, rate_hand [(9,'H'),(8,'H'),(7,'H'),(6,'H')] = .ok (some (r, v)) :=
  c1_no_size_validation [(9,'H'),(8,'H'),(7,'H'),(6,'H')] rfl

/-- C4: on every 5-card hand (sorted by rank descending), `rate_hand` returns
the category and tiebreak key of the spec's decision table, first matching
row from strongest to weakest. -/
theorem c4_decision_table (h : Hand) (h5 : h.length = 5)
    (hsorted : h.Sorted (fun p q : Card => q.1 ≤ p.1)) :
    ∃ v, rate_hand h = .ok (some ((classify_spec h).1, v)) ∧
      tbToList v = (classify_spec h).2 := by
  obtain ⟨v, h1, h2, -⟩ := rate_hand_spec h h5
  exact ⟨v, h1, h2⟩

/-- Witness for C4 at a concrete full-house hand. -/
theorem c4_witness :
    ∃ v, rate_hand [(5,'H'),(5,'D'),(2,'C'),(2,'D'),(2,'S')] =
        .ok (some ((classify_spec [(5,'H'),(5,'D'),(2,'C'),(2,'D'),(2,'S')]).1, v)) ∧
      tbToList v = (classify_spec [(5,'H'),(5,'D'),(2,'C'),(2,'D'),(2,'S')]).2 :=
  c4_decision_table [(5,'H'),(5,'D'),(2,'C'),(2,'D'),(2,'S')] rfl (by decide)

/-- C8: on every 5-card hand (sorted by rank descending), classification is
total — it returns exactly one HandType — and the tiebreak key's length
matches the category's defined shape. -/
theorem c8_total_with_key_shape (h : Hand) (h5 : h.length = 5)
    (hsorted : h.Sorted (fun p q : Card => q.1 ≤ p.1)) :
    ∃ t v, rate_hand h = .ok (some (t, v)) ∧
      (tbToList v).length = key_shape t := by
  obtain ⟨v, h1, h2, h3⟩ := rate_hand_spec h h5
  exact ⟨(classify_spec h).1, v, h1, by rw [h2, h3]⟩

/-- Witness for C8 at a concrete straight hand. -/
theorem c8_witness :
    ∃ t v, rate_hand [(9,'H'),(8,'D'),(7,'S'),(6,'C'),(5,'H')] =
        .ok (some (t, v)) ∧ (tbToList v).length = key_shape t :=
  c8_total_with_key_shape [(9,'H'),(8,'D'),(7,'S'),(6,'C'),(5,'H')] rfl
    (by decide)

/-- C9: characters of a token past the second are ignored: whenever the first
character is an accepted rank character, parsing succeeds and yields the card
given by the first two characters alone. -/
theorem c9_trailing_chars_ignored (c0 c1 : Char) (rest : List Char)
    (hv : valid_rank_char c0 = true) :
    ∃ v, read_card (String.mk (c0 :: c1 :: rest)) = .ok (v, c1) ∧
      read_card (String.mk [c0, c1]) = .ok (v, c1) := by
  unfold valid_rank_char at hv
  by_cases hd : c0.isDigit
  · exact ⟨digitVal c0, by simp [read_card, hd], by simp [read_card, hd]⟩
  · rw [Bool.or_eq_true] at hv
    rcases hv with hv | hv
    · exact absurd hv (by simp [hd])
    · obtain ⟨v, hl⟩ := Option.isSome_iff_exists.mp hv
      exact ⟨v, by simp [read_card, hd, hl], by simp [read_card, hd, hl]⟩

/-- Witness for C9: "AS!!" parses like "AS". -/
theorem c9_witness :
    ∃ v, read_card (String.mk ['A', 'S', '!', '!']) = .ok (v, 'S') ∧
      read_card (String.mk ['A', 'S']) = .ok (v, 'S') :=
  c9_trailing_chars_ignored 'A' 'S' ['!', '!'] (by decide)

/-- Counterexample to C2: token "0H" has a rank character that is neither a
digit 2-9 nor one of T/J/Q/K/A, yet parsing succeeds (with the invalid rank
0); token "AS!" is not exactly 2 characters, yet parsing succeeds. -/
theorem c2_counterexample :
    read_card "0H" = .ok (0, 'H') ∧ read_card "AS!" = .ok (14, 'S') :=
  ⟨rfl, rfl⟩

/-- Counterexample to C3: parsing "1X" succeeds and produces the card
(1, 'X'), whose rank is outside [2,14] and whose suit is not one of the four
symbols C/D/H/S. -/
theorem c3_counterexample :
    read_card "1X" = .ok (1, 'X') ∧ ¬ 2 ≤ (1 : Nat) ∧
      'X' ∉ (['C', 'D', 'H', 'S'] : List Char) :=
  ⟨rfl, by decide, by decide⟩

/-- C2 amended: parsing succeeds exactly when the token has at least two
characters and its first character is a digit 0-9 or one of T/J/Q/K/A
(case-insensitive); it fails (KeyError / IndexError) on every other token.
Digits 0 and 1 are accepted, and trailing characters are not checked. -/
theorem c2_parse_ok_iff (s : String) :
    (∃ card, read_card s = .ok card) ↔
      ∃ c0 c1 rest, s.data = c0 :: c1 :: rest ∧ valid_rank_char c0 = true := by
  obtain ⟨l⟩ := s
  cases l with
  | nil => simp [read_card]
  | cons c0 rest =>
    cases rest with
    | nil =>
      by_cases hd : c0.isDigit
      · simp [read_card, hd]
      · cases hl : pictures.lookup c0.toUpper with
        | none => simp [read_card, valid_rank_char, hd, hl]
        | some v => simp [read_card, hd, hl]
    | cons c1 rest2 =>
      by_cases hv : valid_rank_char c0 = true
      · have hok : ∃ card, read_card (String.mk (c0 :: c1 :: rest2)) = .ok card := by
          unfold valid_rank_char at hv
          by_cases hd : c0.isDigit
          · exact ⟨(digitVal c0, c1), by simp [read_card, hd]⟩
          · rw [Bool.or_eq_true] at hv
            rcases hv with hv | hv
            · exact absurd hv (by simp [hd])
            · obtain ⟨v, hl⟩ := Option.isSome_iff_exists.mp hv
              exact ⟨(v, c1), by simp [read_card, hd, hl]⟩
        constructor
        · intro _
          exact ⟨c0, c1, rest2, rfl, hv⟩
        · intro _
          exact hok
      · have hd : c0.isDigit = false := by
          cases hdd : c0.isDigit with
          | false => rfl
          | true => exact absurd (by simp [valid_rank_char, hdd]) hv
        have hl : pictures.lookup c0.toUpper = none := by
          cases hll : pictures.lookup c0.toUpper with
          | none => rfl
          | some v => exact absurd (by simp [valid_rank_char, hll]) hv
        have hfail : read_card (String.mk (c0 :: c1 :: rest2)) =
            .error .keyError := by
          simp [read_card, hd, hl]
        constructor
        · intro hok
          obtain ⟨card, hcard⟩ := hok
          rw [hfail] at hcard
          exact absurd hcard (by simp)
        · intro hex
          obtain ⟨c0', c1', rest', heq, hv2⟩ := hex
          have : c0' = c0 := by
            have := congrArg (fun x => x.headD ' ') heq
            simpa using this.symm
          rw [this] at hv2
          exact absurd hv2 hv

/-- Every value of the `pictures` dict is between 10 and 14. -/
theorem pictures_lookup_le (c : Char) (v : Nat)
    (hl : pictures.lookup c = some v) : 10 ≤ v ∧ v ≤ 14 := by
  simp only [pictures, List.lookup] at hl
  repeat' split at hl
  all_goals simp_all
  all_goals omega

theorem digitVal_le (c : Char) (hd : c.isDigit = true) : digitVal c ≤ 9 := by
  unfold digitVal
  simp only [Char.isDigit] at hd
  rw [Bool.and_eq_true] at hd
  obtain ⟨-, h2⟩ := hd
  simp only [decide_eq_true_eq] at h2
  rw [UInt32.le_def, BitVec.le_def] at h2
  have h9 : (57 : UInt32).toBitVec.toNat = 57 := rfl
  rw [h9] at h2
  have hc : c.toNat = c.val.toBitVec.toNat := rfl
  have h0 : ('0' : Char).toNat = 48 := rfl
  omega

/-- C3 amended: every successfully parsed card has rank at most 14 (digits
give 0-9, picture letters give 10-14); there is no lower bound 2 and the
suit character is passed through unvalidated. -/
theorem c3_rank_le_14 (s : String) (v : Nat) (c : Char)
    (hok : read_card s = .ok (v, c)) : v ≤ 14 := by
  obtain ⟨l⟩ := s
  cases l with
  | nil => simp [read_card] at hok
  | cons c0 rest =>
    by_cases hd : c0.isDigit
    · cases rest with
      | nil => simp [read_card, hd] at hok
      | cons c1 r2 =>
        simp [read_card, hd] at hok
        have h9 := digitVal_le c0 hd
        omega
    · cases hl : pictures.lookup c0.toUpper with
      | none => simp [read_card, hd, hl] at hok
      | some pv =>
        cases rest with
        | nil => simp [read_card, hd, hl] at hok
        | cons c1 r2 =>
          simp [read_card, hd, hl] at hok
          have := pictures_lookup_le c0.toUpper pv hl
          omega

/-- Witness for C3 amended: the ace of hearts parses with rank 14 ≤ 14. -/
theorem c3_witness : read_card "AH" = .ok (14, 'H') ∧ (14 : Nat) ≤ 14 :=
  ⟨rfl, c3_rank_le_14 "AH" 14 'H' rfl⟩

end Poker
